import Mathlib

/-!
Verification of the `pdf-ocr-app.py` pipeline (convert → clean → OCR → zip).

The program is shallowly embedded.  The three external libraries
(OpenCV, pytesseract, pdf2image) are modelled as parameters: the code of
the repository only glues them together, and every claim is about that
glue, so the theorems quantify over all interpretations of the external
primitives.  Machine reals (OpenCV angles) are modelled as rationals.
-/

namespace PdfOcr

/-- Interface to the OpenCV primitives used by `clean_and_deskew`
(src/pdf-ocr-app.py).  Each field is one concrete call made by the code:
`cvtColorGray` is `cv2.cvtColor(img, COLOR_BGR2GRAY)`,
`threshold_128_binary_inv` is `cv2.threshold(gray, 128, 255, THRESH_BINARY_INV)`,
`findContours` is `cv2.findContours(binary, RETR_LIST, CHAIN_APPROX_SIMPLE)`,
`contourArea` is `cv2.contourArea`,
`minAreaRect_angle` is `cv2.minAreaRect(c)[2]`,
`warpAffine_rotate g a` is `cv2.warpAffine(g, getRotationMatrix2D(center, a, 1.0), (w, h),
 INTER_CUBIC, BORDER_REPLICATE)` (rotation of `g` about the image center by `a`), and
`adaptiveThreshold_gaussian_11_2` is
`cv2.adaptiveThreshold(g, 255, ADAPTIVE_THRESH_GAUSSIAN_C, THRESH_BINARY, 11, 2)`. -/
structure CVLib (Img Gray Contour : Type) where
  cvtColorGray : Img → Gray
  threshold_128_binary_inv : Gray → Gray
  findContours : Gray → List Contour
  contourArea : Contour → ℚ
  minAreaRect_angle : Contour → ℚ
  warpAffine_rotate : Gray → ℚ → Gray
  adaptiveThreshold_gaussian_11_2 : Gray → Gray

/-- Python's `max(contours, key=cv2.contourArea)` on a possibly empty list:
`none` on the empty list (the code guards with `if contours:`), otherwise the
first element of maximal area (a later element replaces the current best only
when its key is strictly greater). -/
def max_by_area {C : Type} (area : C → ℚ) : List C → Option C
  | [] => none
  | c :: rest => some (rest.foldl (fun best x => if area best < area x then x else best) c)

/-- Lines 103–104 of src/pdf-ocr-app.py: `if angle < -45: angle = 90 + angle`. -/
def normalize_angle (a : ℚ) : ℚ :=
  if a < -45 then 90 + a else a

/-- Function `clean_and_deskew` (src/pdf-ocr-app.py lines 78–125): grayscale, global
inverse threshold at 128, contours, largest contour, min-area-rect angle,
normalization, rotation when `|angle| > 0.5`, and adaptive thresholding.
It is a total function of the input image (no failure path). -/
def clean_and_deskew {Img Gray Contour : Type} (cv : CVLib Img Gray Contour)
    (img : Img) : Gray :=
  let gray := cv.cvtColorGray img
  let binary := cv.threshold_128_binary_inv gray
  let contours := cv.findContours binary
  let deskewed :=
    match max_by_area cv.contourArea contours with
    | some largest_contour =>
      let angle := normalize_angle (cv.minAreaRect_angle largest_contour)
      if (1 : ℚ) / 2 < |angle| then cv.warpAffine_rotate gray angle else gray
    | none => gray
  cv.adaptiveThreshold_gaussian_11_2 deskewed

/-- A small concrete interpretation of the OpenCV interface, used to
evaluate the theorems on concrete inputs.  Images and grayscales are
integers; a contour is an integer whose value is both its area and the
negation of its min-area-rect angle. -/
def cvTest : CVLib Int Int Int :=
  ⟨fun i => i,
   fun g => g,
   fun b => if b = 0 then [] else [b, b + 1],
   fun c => (c : ℚ),
   fun c => -(c : ℚ),
   fun g a => 1000 * g + a.num,
   fun g => g + 7⟩

/-- The final path component of a character sequence: the characters after
the last `/` (the whole sequence when there is no `/`).  This is
`os.path.basename` and, for ordinary paths, `pathlib.PurePath.name`. -/
def last_component_chars (p : List Char) : List Char :=
  (p.reverse.takeWhile (fun c => c ≠ '/')).reverse

/-- Model of `os.path.basename`, as used by `create_zip` for the archive entry name. -/
def os_path_basename (p : String) : String :=
  String.mk (last_component_chars p.data)

/-- CPython's stem computation on a file name `name`:
with `i = name.rfind('.')`, the result is `name[:i]` when `0 < i < len(name) - 1`
and `name` unchanged otherwise (no dot, leading dot, or trailing dot). -/
def python_stem_chars (name : List Char) : List Char :=
  let rev := name.reverse
  let ext_rev := rev.takeWhile (fun c => c ≠ '.')
  if ext_rev.length = rev.length then name
  else if ext_rev = [] then name
  else
    let rest := rev.drop (ext_rev.length + 1)
    if rest = [] then name else rest.reverse

/-- Model of `pathlib.Path(p).stem`: the final path component with its last
extension removed. -/
def pathlib_stem (p : String) : String :=
  String.mk (python_stem_chars (last_component_chars p.data))

/-- Lines 181–183 of src/pdf-ocr-app.py: when `--output` is not given,
`args.output = f"{Path(args.pdf_path).stem}_ocr.zip"`. -/
def default_output (pdf_path : String) : String :=
  pathlib_stem pdf_path ++ "_ocr.zip"

/-- Line 181: the output path actually used — the `--output` value when
given, the default otherwise. -/
def resolve_output (output : Option String) (pdf_path : String) : String :=
  match output with
  | some o => o
  | none => default_output pdf_path

/-- What the spec claims the default is: the input path with its extension
replaced by `_ocr.zip`, keeping the directory part.  (Refinement target for
the default-output claim; written from the spec's words, not the code.) -/
def spec_default_output (pdf_path : String) : String :=
  String.mk (python_stem_chars pdf_path.data) ++ "_ocr.zip"

/-- The text file name of page `n` (`f"page_{page_num}.txt"`, line 67). -/
def page_txt_name (n : Nat) : String :=
  "page_" ++ toString n ++ ".txt"

/-- The temporary path the page text is written to
(`os.path.join(temp_dir, f"page_{page_num}.txt")`). -/
def page_txt_path (temp_dir : String) (n : Nat) : String :=
  temp_dir ++ "/" ++ page_txt_name n

/-- One write to the temporary directory: `open(path, "w").write(content)`
updates the file system at `path`. -/
def fs_write (fs : String → String) (path content : String) : String → String :=
  fun p => if p = path then content else fs p

/-- The temporary-directory file system after a list of writes, starting
from an empty directory (reading an unwritten path is arbitrary; `""`). -/
def fs_after (writes : List (String × String)) : String → String :=
  writes.foldl (fun fs pc => fs_write fs pc.1 pc.2) (fun _ => "")

/-- One page's processing (lines 61–64): clean the page image, then OCR it.
`clean` and `ocr` may fail: cv2/pytesseract raise, and the exception
propagates (there is no handler in `process_pdf`). -/
def page_text {Img Gray E : Type} (clean : Img → Except E Gray)
    (ocr : Gray → Except E String) (img : Img) : Except E String :=
  match clean img with
  | .error e => .error e
  | .ok c => ocr c

/-- The per-page loop of `process_pdf` (lines 51–70), started at
`page_num = n`: for each page in order, clean and OCR it and write the text
to `page_txt_path temp_dir page_num`; the result is the ordered list of
(path, content) writes (`text_files` plus the file contents).  Any failure
aborts the whole loop with that error. -/
def ocr_pages {Img Gray E : Type} (clean : Img → Except E Gray)
    (ocr : Gray → Except E String) (temp_dir : String) :
    Nat → List Img → Except E (List (String × String))
  | _, [] => .ok []
  | n, img :: rest =>
    match page_text clean ocr img with
    | .error e => .error e
    | .ok t =>
      match ocr_pages clean ocr temp_dir (n + 1) rest with
      | .error e => .error e
      | .ok more => .ok ((page_txt_path temp_dir n, t) :: more)

/-- Function `create_zip` (lines 128–134): one archive entry per given file path, in
order, named by the path's basename, with the bytes read back from the file
system. -/
def create_zip (read_file : String → String) (file_paths : List String) :
    List (String × String) :=
  file_paths.map (fun p => (os_path_basename p, read_file p))

/-- Function `process_pdf` (lines 36–73): convert the PDF to images, run the per-page
loop starting at page 1, then zip the written text files.  `convert` models
`pdf2image.convert_from_path`, which may fail.  The result is the list of
archive entries (name, content), or the first error. -/
def process_pdf {Img Gray E : Type} (convert : String → Except E (List Img))
    (clean : Img → Except E Gray) (ocr : Gray → Except E String)
    (temp_dir pdf_path : String) : Except E (List (String × String)) :=
  match convert pdf_path with
  | .error e => .error e
  | .ok images =>
    match ocr_pages clean ocr temp_dir 1 images with
    | .error e => .error e
    | .ok files => .ok (create_zip (fs_after files) (files.map Prod.fst))

/-- What ends up persisted at the output zip path: the archive entries when
the run succeeds, nothing when any step raises — `zipfile.ZipFile(path, 'w')`
is only opened in `create_zip`, after every page has been processed, so an
aborted run never touches the output path. -/
def output_file {Img Gray E : Type} (convert : String → Except E (List Img))
    (clean : Img → Except E Gray) (ocr : Gray → Except E String)
    (temp_dir pdf_path : String) : Option (List (String × String)) :=
  match process_pdf convert clean ocr temp_dir pdf_path with
  | .ok entries => some entries
  | .error _ => none

/-- Observable outcome of running the `__main__` block: the exit status
(`some c` when `sys.exit(c)` was called or the interpreter returned),
everything printed, and what was persisted at the output zip path
(`none` when no output file was created). -/
structure MainResult where
  exit_code : Nat
  printed : List String
  archive : Option (List (String × String))

/-- The two lines printed when Tesseract is missing (lines 152–153). -/
def tesseract_error_lines : List String :=
  ["ERROR: Tesseract OCR is not installed or not in PATH.",
   "Please install Tesseract: https://github.com/tesseract-ocr/tesseract"]

/-- The `__main__` block (lines 147–186).  `tesseract_installed` models
`check_tesseract_installed()` (lines 137–144); `poppler_missing` models the
`convert_from_path(None)` probe whose exception message contains "poppler"
(lines 156–168), with `poppler_lines` the platform-specific instructions it
prints; `run` models `process_pdf` on the resolved arguments, yielding the
persisted archive on success and `none` on an uncaught exception (which
makes the interpreter exit with status 1).  Every check precedes any
processing, so in the failing branches no output file is created. -/
def main_run (tesseract_installed : Bool) (poppler_missing : Bool)
    (poppler_lines : List String)
    (run : String → String → Option (List (String × String)))
    (pdf_path : String) (output : Option String) : MainResult :=
  if tesseract_installed = false then
    ⟨1, tesseract_error_lines, none⟩
  else if poppler_missing then
    ⟨1, "ERROR: Poppler is not installed (required by pdf2image)." :: poppler_lines, none⟩
  else
    let out := resolve_output output pdf_path
    match run pdf_path out with
    | some entries => ⟨0, [], some entries⟩
    | none => ⟨1, [], none⟩

/-- A concrete two-page conversion for evaluating the pipeline theorems. -/
def convertTest : String → Except Unit (List Int) :=
  fun _ => .ok [5, 7]

/-- A concrete zero-page conversion. -/
def convertEmptyTest : String → Except Unit (List Int) :=
  fun _ => .ok []

/-- A concrete always-succeeding cleaner. -/
def cleanTest : Int → Except Unit Int :=
  fun i => .ok (i + 1)

/-- A concrete always-failing cleaner (models a raised exception). -/
def cleanFailTest : Int → Except Unit Int :=
  fun _ => .error ()

/-- A concrete OCR function. -/
def ocrTest : Int → Except Unit String :=
  fun g => .ok (Nat.repr g.toNat)

/-- The fold inside `max_by_area` dominates its start and every listed
element: Python's `max(..., key=area)` returns an element of maximal key. -/
theorem max_by_area_foldl_le {C : Type} (area : C → ℚ) (l : List C) (b : C) :
    area b ≤ area (l.foldl (fun best x => if area best < area x then x else best) b) ∧
    ∀ c ∈ l, area c ≤ area (l.foldl (fun best x => if area best < area x then x else best) b) := by
  induction l generalizing b with
  | nil => exact ⟨le_refl _, by simp⟩
  | cons x rest ih =>
    have hb : area b ≤ area (if area b < area x then x else b) := by
      split
      · exact le_of_lt (by assumption)
      · exact le_refl _
    have hx : area x ≤ area (if area b < area x then x else b) := by
      split
      · exact le_refl _
      · exact le_of_not_lt (by assumption)
    obtain ⟨h1, h2⟩ := ih (if area b < area x then x else b)
    refine ⟨le_trans hb h1, ?_⟩
    intro c hc
    rcases List.mem_cons.mp hc with rfl | hc
    · exact le_trans hx h1
    · exact h2 c hc

/-- On a nonempty list, `max_by_area` returns an element of maximal area. -/
theorem max_by_area_spec {C : Type} (area : C → ℚ) (l : List C) (h : l ≠ []) :
    ∃ m, max_by_area area l = some m ∧ ∀ c ∈ l, area c ≤ area m := by
  cases l with
  | nil => exact absurd rfl h
  | cons c rest =>
    refine ⟨_, rfl, ?_⟩
    intro x hx
    obtain ⟨h1, h2⟩ := max_by_area_foldl_le area rest c
    rcases List.mem_cons.mp hx with rfl | hx
    · exact h1
    · exact h2 x hx

/-- C2: the normalized deskew angle is `90 + a` exactly when the raw
min-area-rect angle `a` is below `-45` degrees and `a` itself otherwise;
in particular `-60` normalizes to `30` and `-10` stays `-10`. -/
theorem claim_C2_angle_normalization :
    (∀ a : ℚ, a < -45 → normalize_angle a = 90 + a) ∧
    (∀ a : ℚ, ¬a < -45 → normalize_angle a = a) ∧
    normalize_angle (-60) = 30 ∧ normalize_angle (-10) = -10 := by
  refine ⟨fun a ha => if_pos ha, fun a ha => if_neg ha, ?_, ?_⟩
  · rw [normalize_angle, if_pos (by norm_num)]
    norm_num
  · rw [normalize_angle, if_neg (by norm_num)]

/-- Witness for C2 at the concrete angles `-60` and `-10`. -/
theorem claim_C2_angle_normalization_witness :
    normalize_angle (-60) = 90 + (-60) ∧ normalize_angle (-10) = -10 :=
  ⟨claim_C2_angle_normalization.1 (-60) (by norm_num),
   claim_C2_angle_normalization.2.1 (-10) (by norm_num)⟩

/-- C3: when the binarized image yields at least one contour, the image
passed to adaptive thresholding is the grayscale rotated by the normalized
angle of the maximal-area contour exactly when that angle exceeds `0.5`
degrees in absolute value, and the unrotated grayscale otherwise. -/
theorem claim_C3_rotation_iff_over_half_degree {Img Gray Contour : Type}
    (cv : CVLib Img Gray Contour) (img : Img)
    (h : cv.findContours (cv.threshold_128_binary_inv (cv.cvtColorGray img)) ≠ []) :
    ∃ largest,
      max_by_area cv.contourArea
          (cv.findContours (cv.threshold_128_binary_inv (cv.cvtColorGray img))) =
        some largest ∧
      (∀ c ∈ cv.findContours (cv.threshold_128_binary_inv (cv.cvtColorGray img)),
        cv.contourArea c ≤ cv.contourArea largest) ∧
      ((1 : ℚ) / 2 < |normalize_angle (cv.minAreaRect_angle largest)| →
        clean_and_deskew cv img =
          cv.adaptiveThreshold_gaussian_11_2
            (cv.warpAffine_rotate (cv.cvtColorGray img)
              (normalize_angle (cv.minAreaRect_angle largest)))) ∧
      (¬(1 : ℚ) / 2 < |normalize_angle (cv.minAreaRect_angle largest)| →
        clean_and_deskew cv img =
          cv.adaptiveThreshold_gaussian_11_2 (cv.cvtColorGray img)) := by
  obtain ⟨m, hm, hmax⟩ := max_by_area_spec cv.contourArea _ h
  refine ⟨m, hm, hmax, ?_, ?_⟩
  · intro hrot
    rw [clean_and_deskew]
    simp only [hm, if_pos hrot]
  · intro hrot
    rw [clean_and_deskew]
    simp only [hm, if_neg hrot]

/-- Witness for C3: with the test interpretation on image `60`, the contour
list is `[60, 61]`, nonempty. -/
theorem claim_C3_rotation_iff_over_half_degree_witness :
    ∃ largest,
      max_by_area cvTest.contourArea
          (cvTest.findContours (cvTest.threshold_128_binary_inv (cvTest.cvtColorGray 60))) =
        some largest ∧
      (∀ c ∈ cvTest.findContours (cvTest.threshold_128_binary_inv (cvTest.cvtColorGray 60)),
        cvTest.contourArea c ≤ cvTest.contourArea largest) ∧
      ((1 : ℚ) / 2 < |normalize_angle (cvTest.minAreaRect_angle largest)| →
        clean_and_deskew cvTest 60 =
          cvTest.adaptiveThreshold_gaussian_11_2
            (cvTest.warpAffine_rotate (cvTest.cvtColorGray 60)
              (normalize_angle (cvTest.minAreaRect_angle largest)))) ∧
      (¬(1 : ℚ) / 2 < |normalize_angle (cvTest.minAreaRect_angle largest)| →
        clean_and_deskew cvTest 60 =
          cvTest.adaptiveThreshold_gaussian_11_2 (cvTest.cvtColorGray 60)) :=
  claim_C3_rotation_iff_over_half_degree cvTest 60 (by decide)

/-- C4: when the inverted global binarization yields no contours, the
deskew step is skipped and the result is the adaptive threshold of the
unrotated grayscale (the function is total, so no error is possible). -/
theorem claim_C4_no_contours_skips_deskew {Img Gray Contour : Type}
    (cv : CVLib Img Gray Contour) (img : Img)
    (h : cv.findContours (cv.threshold_128_binary_inv (cv.cvtColorGray img)) = []) :
    clean_and_deskew cv img =
      cv.adaptiveThreshold_gaussian_11_2 (cv.cvtColorGray img) := by
  rw [clean_and_deskew]
  simp only [h, max_by_area]

/-- Witness for C4: image `0` yields an empty contour list in the test
interpretation. -/
theorem claim_C4_no_contours_skips_deskew_witness :
    clean_and_deskew cvTest 0 =
      cvTest.adaptiveThreshold_gaussian_11_2 (cvTest.cvtColorGray 0) :=
  claim_C4_no_contours_skips_deskew cvTest 0 (by decide)

/-- C5: `clean_and_deskew` is deterministic — with the same underlying
numerical routines, equal input images give equal outputs. -/
theorem claim_C5_deterministic {Img Gray Contour : Type}
    (cv : CVLib Img Gray Contour) (img1 img2 : Img) (h : img1 = img2) :
    clean_and_deskew cv img1 = clean_and_deskew cv img2 := by
  rw [h]

/-- Witness for C5 at a concrete image. -/
theorem claim_C5_deterministic_witness :
    clean_and_deskew cvTest 60 = clean_and_deskew cvTest 60 :=
  claim_C5_deterministic cvTest 60 60 rfl

/-- With enough fuel, `Nat.toDigitsCore` produces the base-10 digits of a
positive number, most significant first, in front of the accumulator. -/
theorem toDigitsCore_eq_digits :
    ∀ (f n : ℕ) (acc : List Char), 0 < n → n < f →
      Nat.toDigitsCore 10 f n acc =
        ((Nat.digits 10 n).map Nat.digitChar).reverse ++ acc := by
  intro f
  induction f with
  | zero => intro n acc _ h; omega
  | succ f ih =>
    intro n acc hn hf
    rw [Nat.toDigitsCore]
    by_cases h10 : n / 10 = 0
    · simp only [h10, if_pos]
      rw [Nat.digits_def' (by norm_num) hn, h10]
      simp
    · simp only [h10, if_neg]
      have hdivpos : 0 < n / 10 := Nat.pos_of_ne_zero h10
      have hdivlt : n / 10 < f :=
        lt_of_lt_of_le (Nat.div_lt_self hn (by norm_num)) (Nat.lt_succ_iff.mp hf)
      rw [ih (n / 10) (Nat.digitChar (n % 10) :: acc) hdivpos hdivlt]
      rw [Nat.digits_def' (by norm_num) hn]
      simp

/-- For a positive number, `Nat.repr` is the decimal digit characters, most
significant first. -/
theorem repr_eq_digits (n : ℕ) (hn : 0 < n) :
    Nat.repr n = (((Nat.digits 10 n).map Nat.digitChar).reverse).asString := by
  rw [Nat.repr, Nat.toDigits, toDigitsCore_eq_digits (n + 1) n [] hn (Nat.lt_succ_self n)]
  simp

/-- Function `Nat.digitChar` is injective below the base 10. -/
theorem digitChar_inj_lt_ten :
    ∀ a, a < 10 → ∀ b, b < 10 → Nat.digitChar a = Nat.digitChar b → a = b := by
  decide

/-- Mapping `digitChar` over lists of base-10 digits is injective. -/
theorem map_digitChar_inj :
    ∀ (l1 l2 : List ℕ), (∀ d ∈ l1, d < 10) → (∀ d ∈ l2, d < 10) →
      l1.map Nat.digitChar = l2.map Nat.digitChar → l1 = l2 := by
  intro l1
  induction l1 with
  | nil =>
    intro l2 _ _ h
    cases l2 with
    | nil => rfl
    | cons x xs => simp at h
  | cons x xs ih =>
    intro l2 h1 h2 h
    cases l2 with
    | nil => simp at h
    | cons y ys =>
      simp only [List.map_cons, List.cons.injEq] at h
      have hx : x = y :=
        digitChar_inj_lt_ten x (h1 x (List.mem_cons_self x xs)) y
          (h2 y (List.mem_cons_self y ys)) h.1
      have hxs : xs = ys :=
        ih ys (fun d hd => h1 d (List.mem_cons_of_mem x hd))
          (fun d hd => h2 d (List.mem_cons_of_mem y hd)) h.2
      rw [hx, hxs]

/-- The decimal string representation of a natural number determines the
number: `Nat.repr` is injective. -/
theorem nat_repr_injective : Function.Injective Nat.repr := by
  have key : ∀ m n : ℕ, 0 < m → 0 < n → Nat.repr m = Nat.repr n → m = n := by
    intro m n hm hn h
    rw [repr_eq_digits m hm, repr_eq_digits n hn] at h
    have hdata := congrArg String.data h
    simp only [List.asString] at hdata
    have hmap : (Nat.digits 10 m).map Nat.digitChar = (Nat.digits 10 n).map Nat.digitChar :=
      List.reverse_injective hdata
    have hdig : Nat.digits 10 m = Nat.digits 10 n :=
      map_digitChar_inj _ _ (fun d hd => Nat.digits_lt_base (by norm_num) hd)
        (fun d hd => Nat.digits_lt_base (by norm_num) hd) hmap
    have := congrArg (Nat.ofDigits 10) hdig
    rwa [Nat.ofDigits_digits, Nat.ofDigits_digits] at this
  have hzero : ∀ n : ℕ, 0 < n → Nat.repr n ≠ Nat.repr 0 := by
    intro n hn h
    rw [repr_eq_digits n hn] at h
    have hdata := congrArg String.data h
    simp only [List.asString] at hdata
    have h0 : Nat.repr 0 = "0" := rfl
    rw [h0] at hdata
    have hmap : (Nat.digits 10 n).map Nat.digitChar = ['0'] := by
      have := congrArg List.reverse hdata
      simpa using this
    have hdig : Nat.digits 10 n = [0] := by
      have : ([0] : List ℕ).map Nat.digitChar = ['0'] := by decide
      exact map_digitChar_inj _ [0] (fun d hd => Nat.digits_lt_base (by norm_num) hd)
        (by intro d hd; simp at hd; omega) (by rw [hmap, this])
    have := congrArg (Nat.ofDigits 10) hdig
    rw [Nat.ofDigits_digits] at this
    simp [Nat.ofDigits] at this
    omega
  intro m n h
  rcases Nat.eq_zero_or_pos m with rfl | hm
  · rcases Nat.eq_zero_or_pos n with rfl | hn
    · rfl
    · exact absurd h.symm (hzero n hn)
  · rcases Nat.eq_zero_or_pos n with rfl | hn
    · exact absurd h (hzero m hm)
    · exact key m n hm hn h

/-- Every character of `Nat.repr n` is a decimal digit character. -/
theorem repr_chars_are_digits (n : ℕ) :
    ∀ c ∈ (Nat.repr n).data, c ∈ ['0', '1', '2', '3', '4', '5', '6', '7', '8', '9'] := by
  rcases Nat.eq_zero_or_pos n with rfl | hn
  · intro c hc
    have : (Nat.repr 0).data = ['0'] := rfl
    rw [this] at hc
    simp at hc
    simp [hc]
  · intro c hc
    rw [repr_eq_digits n hn] at hc
    simp only [List.asString] at hc
    rw [List.mem_reverse] at hc
    obtain ⟨d, hd, rfl⟩ := List.mem_map.mp hc
    have hlt : d < 10 := Nat.digits_lt_base (by norm_num) hd
    interval_cases d <;> decide

/-- List `takeWhile` stops exactly at the first failing element. -/
theorem takeWhile_until {α : Type} (p : α → Bool) (l1 : List α) (x : α) (l2 : List α)
    (h1 : ∀ a ∈ l1, p a = true) (hx : p x = false) :
    (l1 ++ x :: l2).takeWhile p = l1 := by
  rw [List.takeWhile_append_of_pos h1, List.takeWhile_cons, hx]
  simp

/-- The last path component of `pre ++ "/" ++ name` is `name` when `name`
contains no slash. -/
theorem last_component_chars_append (pre name : List Char) (h : '/' ∉ name) :
    last_component_chars (pre ++ '/' :: name) = name := by
  rw [last_component_chars, List.reverse_append, List.reverse_cons, List.append_assoc,
    List.singleton_append]
  rw [takeWhile_until _ _ _ _ ?_ (by decide)]
  · exact List.reverse_reverse name
  · intro a ha
    rw [List.mem_reverse] at ha
    simp only [ne_eq, decide_eq_true_eq]
    intro hEq
    exact h (hEq ▸ ha)

/-- A slash-free character sequence is its own last path component. -/
theorem last_component_chars_of_no_slash (p : List Char) (h : '/' ∉ p) :
    last_component_chars p = p := by
  rw [last_component_chars]
  rw [List.takeWhile_eq_self_iff.mpr ?_]
  · exact List.reverse_reverse p
  · intro a ha
    rw [List.mem_reverse] at ha
    simp only [ne_eq, decide_eq_true_eq]
    intro hEq
    exact h (hEq ▸ ha)

/-- The Python stem of `file ++ "." ++ ext` is `file` when the extension is
dot-free and both parts are nonempty. -/
theorem python_stem_chars_append (file ext : List Char) (hfile : file ≠ [])
    (hext : ext ≠ []) (hdot : '.' ∉ ext) :
    python_stem_chars (file ++ '.' :: ext) = file := by
  rw [python_stem_chars]
  have hrev : (file ++ '.' :: ext).reverse = ext.reverse ++ '.' :: file.reverse := by
    rw [List.reverse_append, List.reverse_cons, List.append_assoc]
    rfl
  have htake : ((file ++ '.' :: ext).reverse).takeWhile (fun c => c ≠ '.') = ext.reverse := by
    rw [hrev]
    refine takeWhile_until _ _ _ _ ?_ (by decide)
    intro a ha
    rw [List.mem_reverse] at ha
    simp only [ne_eq, decide_eq_true_eq]
    intro hEq
    exact hdot (hEq ▸ ha)
  rw [htake]
  have hlen : ext.reverse.length ≠ (file ++ '.' :: ext).reverse.length := by
    simp only [List.length_reverse, List.length_append, List.length_cons]
    omega
  rw [if_neg hlen]
  have hne : ext.reverse ≠ [] := by
    intro hEq
    exact hext (by simpa using congrArg List.reverse hEq)
  rw [if_neg hne]
  have hdrop : ((file ++ '.' :: ext).reverse).drop (ext.reverse.length + 1) = file.reverse := by
    rw [hrev]
    have : ext.reverse ++ '.' :: file.reverse = (ext.reverse ++ ['.']) ++ file.reverse := by
      simp
    rw [this]
    have hlen2 : ext.reverse.length + 1 = (ext.reverse ++ ['.']).length := by simp
    rw [hlen2, List.drop_left]
  rw [hdrop]
  have hfr : file.reverse ≠ [] := by
    intro hEq
    exact hfile (by simpa using congrArg List.reverse hEq)
  rw [if_neg hfr]
  exact List.reverse_reverse file

/-- C1 (amended): when `--output` is not given, the output zip path is the
input path's final component with its extension removed followed by
`_ocr.zip`; the input's directory part is dropped, so the archive lands in
the current working directory. -/
theorem claim_C1_default_output_drops_directory (dir file ext : String)
    (hfile_slash : '/' ∉ file.data) (hfile_ne : file.data ≠ [])
    (hext_slash : '/' ∉ ext.data) (hext_dot : '.' ∉ ext.data)
    (hext_ne : ext.data ≠ []) :
    resolve_output none (dir ++ "/" ++ file ++ "." ++ ext) = file ++ "_ocr.zip" := by
  rw [resolve_output, default_output, pathlib_stem]
  have hdata : (dir ++ "/" ++ file ++ "." ++ ext).data =
      dir.data ++ '/' :: (file.data ++ '.' :: ext.data) := by
    simp [String.data_append]
  rw [hdata]
  have hname : '/' ∉ file.data ++ '.' :: ext.data := by
    intro hmem
    rcases List.mem_append.mp hmem with h | h
    · exact hfile_slash h
    · rcases List.mem_cons.mp h with h | h
      · exact absurd h (by decide)
      · exact hext_slash h
  rw [last_component_chars_append _ _ hname]
  rw [python_stem_chars_append _ _ hfile_ne hext_ne hext_dot]

/-- Witness for the amended C1 at `dir/doc.pdf`. -/
theorem claim_C1_default_output_drops_directory_witness :
    resolve_output none ("dir" ++ "/" ++ "doc" ++ "." ++ "pdf") = "doc" ++ "_ocr.zip" :=
  claim_C1_default_output_drops_directory "dir" "doc" "pdf" (by decide) (by decide)
    (by decide) (by decide) (by decide)

/-- Counterexample to C1 as stated: on input `dir/doc.pdf` the spec's rule
(extension replaced in place) yields `dir/doc_ocr.zip`, but the program's
default output is `doc_ocr.zip` — `Path(...).stem` drops the directory. -/
theorem claim_C1_counterexample :
    spec_default_output "dir/doc.pdf" = "dir/doc_ocr.zip" ∧
    resolve_output none "dir/doc.pdf" = "doc_ocr.zip" ∧
    resolve_output none "dir/doc.pdf" ≠ spec_default_output "dir/doc.pdf" := by
  refine ⟨by decide, by decide, by decide⟩

/-- On naturals, `toString` is `Nat.repr`. -/
theorem toString_nat_eq_repr (n : ℕ) : toString n = Nat.repr n := rfl

/-- The name `page_{n}.txt` contains no slash: its characters are the fixed affixes
plus decimal digits. -/
theorem page_txt_name_no_slash (n : ℕ) : '/' ∉ (page_txt_name n).data := by
  intro hmem
  rw [page_txt_name, toString_nat_eq_repr] at hmem
  simp only [String.data_append] at hmem
  rcases List.mem_append.mp hmem with h | h
  · rcases List.mem_append.mp h with h | h
    · exact absurd h (by decide)
    · have := repr_chars_are_digits n '/' h
      exact absurd this (by decide)
  · exact absurd h (by decide)

/-- The characters of the temp-file path of page `n`. -/
theorem page_txt_path_data (temp_dir : String) (n : ℕ) :
    (page_txt_path temp_dir n).data = temp_dir.data ++ '/' :: (page_txt_name n).data := by
  rw [page_txt_path]
  simp [String.data_append]

/-- Function `create_zip` names the archive entry for page `n` by the basename of
its temp path, which is `page_{n}.txt`. -/
theorem os_path_basename_page_txt_path (temp_dir : String) (n : ℕ) :
    os_path_basename (page_txt_path temp_dir n) = page_txt_name n := by
  rw [os_path_basename, page_txt_path_data,
    last_component_chars_append _ _ (page_txt_name_no_slash n)]

/-- Distinct pages get distinct text file names. -/
theorem page_txt_name_inj {a b : ℕ} (h : page_txt_name a = page_txt_name b) : a = b := by
  have hdata := congrArg String.data h
  rw [page_txt_name, page_txt_name, toString_nat_eq_repr, toString_nat_eq_repr] at hdata
  simp only [String.data_append] at hdata
  have h1 := List.append_cancel_right hdata
  have h2 := List.append_cancel_left h1
  exact nat_repr_injective (String.ext h2)

/-- Distinct pages get distinct temp-file paths. -/
theorem page_txt_path_inj {temp_dir : String} {a b : ℕ}
    (h : page_txt_path temp_dir a = page_txt_path temp_dir b) : a = b := by
  have hdata := congrArg String.data h
  rw [page_txt_path_data, page_txt_path_data] at hdata
  have h1 := List.append_cancel_left hdata
  have h2 := List.tail_eq_of_cons_eq h1
  exact page_txt_name_inj (String.ext h2)

/-- A fold of writes never touches a path that none of the writes names. -/
theorem fs_writes_foldl_not_mem (writes : List (String × String)) :
    ∀ (fs : String → String) (p : String), p ∉ writes.map Prod.fst →
      writes.foldl (fun fs pc => fs_write fs pc.1 pc.2) fs p = fs p := by
  induction writes with
  | nil => intro fs p _; rfl
  | cons w rest ih =>
    intro fs p hp
    simp only [List.map_cons, List.mem_cons] at hp
    push_neg at hp
    rw [List.foldl_cons, ih _ p hp.2, fs_write, if_neg hp.1]

/-- After a sequence of writes with pairwise distinct paths, reading any
written path returns the content written to it. -/
theorem fs_writes_foldl_mem (writes : List (String × String)) :
    ∀ (fs : String → String) (k v : String), (writes.map Prod.fst).Nodup →
      (k, v) ∈ writes →
      writes.foldl (fun fs pc => fs_write fs pc.1 pc.2) fs k = v := by
  induction writes with
  | nil => intro fs k v _ hmem; simp at hmem
  | cons w rest ih =>
    intro fs k v hnodup hmem
    simp only [List.map_cons, List.nodup_cons] at hnodup
    rw [List.foldl_cons]
    rcases List.mem_cons.mp hmem with rfl | hmem
    · have hk : k ∉ rest.map Prod.fst := by
        simpa using hnodup.1
      rw [fs_writes_foldl_not_mem rest _ k hk, fs_write, if_pos rfl]
    · exact ih _ k v hnodup.2 hmem

/-- Reading through `fs_after` returns the written content when paths are distinct. -/
theorem fs_after_read (writes : List (String × String)) (k v : String)
    (hnodup : (writes.map Prod.fst).Nodup) (hmem : (k, v) ∈ writes) :
    fs_after writes k = v :=
  fs_writes_foldl_mem writes _ k v hnodup hmem

/-- The per-page loop, when it succeeds starting at page number `n`,
produces one write per page, in order: the `i`-th write is to the temp path
of page `n + i` and holds the OCR text of the `i`-th image. -/
theorem ocr_pages_ok_spec {Img Gray E : Type} (clean : Img → Except E Gray)
    (ocr : Gray → Except E String) (temp_dir : String) :
    ∀ (imgs : List Img) (n : Nat) (fs : List (String × String)),
      ocr_pages clean ocr temp_dir n imgs = .ok fs →
      fs.length = imgs.length ∧
      ∀ i (h1 : i < imgs.length) (h2 : i < fs.length),
        ∃ t, page_text clean ocr (imgs.get ⟨i, h1⟩) = .ok t ∧
          fs.get ⟨i, h2⟩ = (page_txt_path temp_dir (n + i), t) := by
  intro imgs
  induction imgs with
  | nil =>
    intro n fs h
    rw [ocr_pages] at h
    cases h
    exact ⟨rfl, fun i h1 => absurd h1 (by simp)⟩
  | cons img rest ih =>
    intro n fs h
    rw [ocr_pages] at h
    cases hpt : page_text clean ocr img with
    | error e => rw [hpt] at h; cases h
    | ok t =>
      rw [hpt] at h
      cases hrec : ocr_pages clean ocr temp_dir (n + 1) rest with
      | error e => rw [hrec] at h; cases h
      | ok more =>
        rw [hrec] at h
        cases h
        obtain ⟨hlen, hget⟩ := ih (n + 1) more hrec
        refine ⟨by simpa using hlen, ?_⟩
        intro i h1 h2
        cases i with
        | zero => exact ⟨t, hpt, by simp⟩
        | succ j =>
          have hj1 : j < rest.length := by simpa using h1
          have hj2 : j < more.length := by simpa using h2
          obtain ⟨u, hu, hgetj⟩ := hget j hj1 hj2
          refine ⟨u, by simpa using hu, ?_⟩
          have harith : n + 1 + j = n + (j + 1) := by omega
          simp only [List.get_cons_succ]
          rw [hgetj, harith]

/-- If any page's cleaning or OCR fails, the whole per-page loop fails. -/
theorem ocr_pages_error_of_page_error {Img Gray E : Type}
    (clean : Img → Except E Gray) (ocr : Gray → Except E String)
    (temp_dir : String) :
    ∀ (imgs : List Img) (n : Nat) (img : Img) (e : E), img ∈ imgs →
      page_text clean ocr img = .error e →
      ∃ e2, ocr_pages clean ocr temp_dir n imgs = .error e2 := by
  intro imgs
  induction imgs with
  | nil => intro n img e hmem; simp at hmem
  | cons x rest ih =>
    intro n img e hmem hpt
    rcases List.mem_cons.mp hmem with rfl | hmem
    · exact ⟨e, by rw [ocr_pages, hpt]⟩
    · cases hx : page_text clean ocr x with
      | error e3 => exact ⟨e3, by rw [ocr_pages, hx]⟩
      | ok t =>
        obtain ⟨e2, h2⟩ := ih (n + 1) img e hmem hpt
        exact ⟨e2, by rw [ocr_pages, hx, h2]⟩

/-- A successful run of `process_pdf` over `images` yields one archive
entry per page: entry `i` (zero-based) is named `page_{i+1}.txt` and holds
the OCR text of image `i`, and the name list is exactly
`page_1.txt … page_N.txt` in source order. -/
theorem process_pdf_ok_spec {Img Gray E : Type} (convert : String → Except E (List Img))
    (clean : Img → Except E Gray) (ocr : Gray → Except E String)
    (temp_dir pdf_path : String) (images : List Img) (entries : List (String × String))
    (hconv : convert pdf_path = .ok images)
    (hok : process_pdf convert clean ocr temp_dir pdf_path = .ok entries) :
    entries.length = images.length ∧
    entries.map Prod.fst = (List.range images.length).map (fun i => page_txt_name (i + 1)) ∧
    ∀ i (h1 : i < images.length) (h2 : i < entries.length),
      ∃ t, page_text clean ocr (images.get ⟨i, h1⟩) = .ok t ∧
        entries.get ⟨i, h2⟩ = (page_txt_name (i + 1), t) := by
  rw [process_pdf, hconv] at hok
  dsimp only at hok
  cases hfiles : ocr_pages clean ocr temp_dir 1 images with
  | error e => rw [hfiles] at hok; cases hok
  | ok files =>
    rw [hfiles] at hok
    dsimp only at hok
    cases hok
    obtain ⟨hlen, hget⟩ := ocr_pages_ok_spec clean ocr temp_dir images 1 files hfiles
    have hkeys : files.map Prod.fst =
        (List.range images.length).map (fun i => page_txt_path temp_dir (1 + i)) := by
      apply List.ext_get
      · simp [hlen]
      · intro i hi1 hi2
        have himage : i < images.length := by simpa [hlen] using hi1
        have hfile : i < files.length := by simpa using hi1
        obtain ⟨t, _, hgi⟩ := hget i himage hfile
        simp only [List.get_eq_getElem, List.getElem_map, List.getElem_range]
        rw [← List.get_eq_getElem files ⟨i, hfile⟩, hgi]
    have hnodup : (files.map Prod.fst).Nodup := by
      rw [hkeys]
      refine List.Nodup.map ?_ (List.nodup_range _)
      intro a b hab
      have := page_txt_path_inj hab
      omega
    refine ⟨?_, ?_, ?_⟩
    · simp [create_zip, hlen]
    · rw [create_zip, List.map_map]
      have hcomp : (Prod.fst ∘ fun p => (os_path_basename p, fs_after files p)) =
          os_path_basename := rfl
      rw [hcomp, hkeys, List.map_map]
      refine List.map_congr_left ?_
      intro i _
      simp only [Function.comp_apply]
      rw [os_path_basename_page_txt_path, Nat.add_comm]
    · intro i h1 h2
      have hfile : i < files.length := by
        rw [hlen]; exact h1
      obtain ⟨t, hpt, hgi⟩ := hget i h1 hfile
      refine ⟨t, hpt, ?_⟩
      have hmem : (page_txt_path temp_dir (1 + i), t) ∈ files := by
        rw [← hgi]
        exact List.get_mem files _ _
      have hread : fs_after files (page_txt_path temp_dir (1 + i)) = t :=
        fs_after_read files _ _ hnodup hmem
      simp only [create_zip, List.get_eq_getElem, List.getElem_map]
      rw [← List.get_eq_getElem files ⟨i, hfile⟩, hgi]
      simp only [hread, os_path_basename_page_txt_path]
      rw [Nat.add_comm]

/-- C6: a successful run over an `N`-page document produces exactly `N`
archive entries, in source page order: entry `i` holds the recognized text
of source page `i`. -/
theorem claim_C6_archive_matches_pages {Img Gray E : Type}
    (convert : String → Except E (List Img)) (clean : Img → Except E Gray)
    (ocr : Gray → Except E String) (temp_dir pdf_path : String)
    (images : List Img) (entries : List (String × String))
    (hconv : convert pdf_path = .ok images)
    (hok : process_pdf convert clean ocr temp_dir pdf_path = .ok entries) :
    entries.length = images.length ∧
    ∀ i (h1 : i < images.length) (h2 : i < entries.length),
      ∃ t, page_text clean ocr (images.get ⟨i, h1⟩) = .ok t ∧
        entries.get ⟨i, h2⟩ = (page_txt_name (i + 1), t) := by
  obtain ⟨h1, _, h3⟩ :=
    process_pdf_ok_spec convert clean ocr temp_dir pdf_path images entries hconv hok
  exact ⟨h1, h3⟩

/-- Witness for C6: a concrete two-page run. -/
theorem claim_C6_archive_matches_pages_witness :
    ([("page_1.txt", "6"), ("page_2.txt", "8")] : List (String × String)).length =
      ([5, 7] : List Int).length :=
  (claim_C6_archive_matches_pages convertTest cleanTest ocrTest "tmp" "doc.pdf"
    [5, 7] [("page_1.txt", "6"), ("page_2.txt", "8")] rfl rfl).1

/-- C7: a failure at any page (conversion, cleaning or OCR) aborts the run
and nothing is persisted at the output zip path. -/
theorem claim_C7_failure_persists_nothing {Img Gray E : Type}
    (convert : String → Except E (List Img)) (clean : Img → Except E Gray)
    (ocr : Gray → Except E String) (temp_dir pdf_path : String)
    (h : (∃ e, convert pdf_path = .error e) ∨
      (∃ images img e, convert pdf_path = .ok images ∧ img ∈ images ∧
        page_text clean ocr img = .error e)) :
    output_file convert clean ocr temp_dir pdf_path = none := by
  rcases h with ⟨e, he⟩ | ⟨images, img, e, hconv, hmem, hpt⟩
  · rw [output_file, process_pdf, he]
  · obtain ⟨e2, h2⟩ :=
      ocr_pages_error_of_page_error clean ocr temp_dir images 1 img e hmem hpt
    rw [output_file, process_pdf, hconv]
    dsimp only
    rw [h2]

/-- Witness for C7: a cleaner that raises on page 1 leaves no output. -/
theorem claim_C7_failure_persists_nothing_witness :
    output_file convertTest cleanFailTest ocrTest "tmp" "doc.pdf" = none :=
  claim_C7_failure_persists_nothing convertTest cleanFailTest ocrTest "tmp" "doc.pdf"
    (Or.inr ⟨[5, 7], 5, (), rfl, by simp, rfl⟩)

/-- C9: a PDF that rasterizes to zero pages still completes and persists an
archive with zero entries. -/
theorem claim_C9_zero_pages_empty_archive {Img Gray E : Type}
    (convert : String → Except E (List Img)) (clean : Img → Except E Gray)
    (ocr : Gray → Except E String) (temp_dir pdf_path : String)
    (hconv : convert pdf_path = .ok ([] : List Img)) :
    output_file convert clean ocr temp_dir pdf_path = some [] := by
  rw [output_file, process_pdf, hconv]
  rfl

/-- Witness for C9: the zero-page conversion. -/
theorem claim_C9_zero_pages_empty_archive_witness :
    output_file convertEmptyTest cleanTest ocrTest "tmp" "doc.pdf" = some [] :=
  claim_C9_zero_pages_empty_archive convertEmptyTest cleanTest ocrTest "tmp" "doc.pdf" rfl

/-- C10: archive entry names are one-based — for an `N`-page input they are
exactly `page_1.txt` through `page_N.txt` in order, and `page_{i}.txt`
holds the text of source page `i`. -/
theorem claim_C10_one_based_page_numbering {Img Gray E : Type}
    (convert : String → Except E (List Img)) (clean : Img → Except E Gray)
    (ocr : Gray → Except E String) (temp_dir pdf_path : String)
    (images : List Img) (entries : List (String × String))
    (hconv : convert pdf_path = .ok images)
    (hok : process_pdf convert clean ocr temp_dir pdf_path = .ok entries) :
    entries.map Prod.fst = (List.range images.length).map (fun i => page_txt_name (i + 1)) ∧
    ∀ i (h1 : i < images.length) (h2 : i < entries.length),
      ∃ t, page_text clean ocr (images.get ⟨i, h1⟩) = .ok t ∧
        entries.get ⟨i, h2⟩ = (page_txt_name (i + 1), t) := by
  obtain ⟨_, h2, h3⟩ :=
    process_pdf_ok_spec convert clean ocr temp_dir pdf_path images entries hconv hok
  exact ⟨h2, h3⟩

/-- Witness for C10: names of the two-page run are `page_1.txt, page_2.txt`. -/
theorem claim_C10_one_based_page_numbering_witness :
    ([("page_1.txt", "6"), ("page_2.txt", "8")] : List (String × String)).map Prod.fst =
      (List.range ([5, 7] : List Int).length).map (fun i => page_txt_name (i + 1)) :=
  (claim_C10_one_based_page_numbering convertTest cleanTest ocrTest "tmp" "doc.pdf"
    [5, 7] [("page_1.txt", "6"), ("page_2.txt", "8")] rfl rfl).1

/-- C8: when the OCR engine is missing, the program exits with status 1,
prints the installation hint, and creates no output file — the check runs
before any processing. -/
theorem claim_C8_missing_tesseract_aborts (tesseract_installed : Bool)
    (poppler_missing : Bool) (poppler_lines : List String)
    (run : String → String → Option (List (String × String)))
    (pdf_path : String) (output : Option String)
    (h : tesseract_installed = false) :
    (main_run tesseract_installed poppler_missing poppler_lines run pdf_path output).exit_code
        = 1 ∧
    "Please install Tesseract: https://github.com/tesseract-ocr/tesseract" ∈
      (main_run tesseract_installed poppler_missing poppler_lines run pdf_path output).printed ∧
    (main_run tesseract_installed poppler_missing poppler_lines run pdf_path output).archive
        = none := by
  subst h
  rw [main_run]
  exact ⟨rfl, by simp [tesseract_error_lines], rfl⟩

/-- Witness for C8 at concrete arguments. -/
theorem claim_C8_missing_tesseract_aborts_witness :
    (main_run false false [] (fun _ _ => none) "doc.pdf" none).exit_code = 1 ∧
    "Please install Tesseract: https://github.com/tesseract-ocr/tesseract" ∈
      (main_run false false [] (fun _ _ => none) "doc.pdf" none).printed ∧
    (main_run false false [] (fun _ _ => none) "doc.pdf" none).archive = none :=
  claim_C8_missing_tesseract_aborts false false [] (fun _ _ => none) "doc.pdf" none rfl

end PdfOcr
